import Mathlib

/-!
Verification of the mass-schedule recovery engine of the parish crawler
(`crawler/holy_repair.py`).

The Python source is shallowly embedded: Python strings become `List Char`,
Python dicts with a fixed key set become structures whose `Option` fields
model key presence, browser-driven handlers are abstracted as an oracle
parameter of the orchestrator, and exceptions become `Option`/explicit
fallbacks exactly where the source catches them.  Library behaviour that the
source relies on (`re` scanning, `str.replace`, `str.strip`, `int`) is
modelled character by character for the ASCII/Hangul inputs the program
works with.
-/

abbrev Str := List Char

def st (s : String) : Str := s.data

/-- Model of the characters accepted by Python's `\s` and stripped by
`str.strip()` (ASCII whitespace; exotic Unicode spaces are not modelled). -/
def pySpace (c : Char) : Bool :=
  c = ' ' || c = '\t' || c = '\n' || c = '\r' || c.toNat = 11 || c.toNat = 12

/-- Python's `str.strip()`. -/
def pyStrip (l : Str) : Str :=
  ((l.dropWhile pySpace).reverse.dropWhile pySpace).reverse

/-- Python's substring containment test `pat in hay`. -/
def containsSub (hay pat : Str) : Bool :=
  hay.tails.any (fun t => pat.isPrefixOf t)

def replaceSubFuel (pat rep : Str) : Nat → Str → Str
  | 0, l => l
  | _ + 1, [] => []
  | fuel + 1, c :: rest =>
    if pat.isPrefixOf (c :: rest) then
      rep ++ replaceSubFuel pat rep fuel ((c :: rest).drop pat.length)
    else c :: replaceSubFuel pat rep fuel rest

/-- Python's `str.replace(pat, rep)` for a non-empty pattern (all of the
source's patterns are non-empty). -/
def replaceSub (l pat rep : Str) : Str := replaceSubFuel pat rep l.length l

/-- Python's `str.split(sep)` for a one-character separator. -/
def splitOnChar (sep : Char) : Str → List Str
  | [] => [[]]
  | c :: rest =>
    let r := splitOnChar sep rest
    if c = sep then [] :: r
    else
      match r with
      | [] => [[c]]
      | h :: t => (c :: h) :: t

/-- Python's `list.index`, returning `none` instead of raising. -/
def listIndex? (l : List Str) (x : Str) : Option Nat :=
  match l with
  | [] => none
  | h :: t => if h = x then some 0 else (listIndex? t x).map (· + 1)

def digitsToNat (l : Str) : Nat := l.foldl (fun a c => a * 10 + (c.toNat - 48)) 0

/-- Model of Python's `int()` on the strings this program feeds it:
succeeds exactly on a non-empty all-ASCII-digit string (signs, interior
underscores and Unicode digits are not modelled). -/
def pyInt? (s : Str) : Option Nat :=
  if s ≠ [] ∧ s.all Char.isDigit then some (digitsToNat s) else none

def natDigitsAux : Nat → Nat → Str
  | 0, _ => []
  | fuel + 1, n =>
    if n < 10 then [Char.ofNat (48 + n)]
    else natDigitsAux fuel (n / 10) ++ [Char.ofNat (48 + n % 10)]

def natDigits (n : Nat) : Str := natDigitsAux (n + 1) n

/-- Python's format `f"{n:02d}"` for a natural number. -/
def pad2 (n : Nat) : Str := if n < 10 then '0' :: natDigits n else natDigits n

/-- The `hour, minute = map(int, time_str.split(':'))` step of
`normalize_time`; `none` models the raised-and-caught exception. -/
def parseHM (s : Str) : Option (Nat × Nat) :=
  match splitOnChar ':' s with
  | [hs, ms] =>
    match pyInt? hs, pyInt? ms with
    | some h, some m => some (h, m)
    | _, _ => none
  | _ => none

def amMarker : Str := st "오전"
def pmMarker : Str := st "오후"

/-- The `f"{hour:02d}:{minute:02d}"` rendering in `normalize_time`. -/
def renderTime (h m : Nat) : Str := pad2 h ++ ':' :: pad2 m

/-- Embedding of `normalize_time(time_str, ampm)` (holy_repair.py:80). -/
def normalize_time (timeStr : Str) (ampm : Option Str) : Str :=
  match ampm with
  | none => timeStr
  | some a =>
    match parseHM timeStr with
    | none => timeStr
    | some (h, m) =>
      if a = pmMarker ∧ h < 12 then renderTime (h + 12) m
      else if a = amMarker ∧ h = 12 then renderTime 0 m
      else renderTime h m

def weekdaysList : List Str :=
  [st "월", st "화", st "수", st "목", st "금", st "토", st "일", st "주일"]

def dailyMarker : Str := st "매일"
def sundaySym : Str := st "주일"

/-- Embedding of `expand_days(day_expression)` (holy_repair.py:92); the
`except` fallback becomes the explicit `[expr]` branches. -/
def expand_days (expr : Str) : List Str :=
  if containsSub expr dailyMarker then
    [st "월", st "화", st "수", st "목", st "금", st "토", st "주일"]
  else if expr.any (fun c => c = '-') then
    match splitOnChar '-' expr with
    | [s0, e0] =>
      let s1 := if s0 = st "일" then sundaySym else s0
      let e1 := if e0 = st "일" then sundaySym else e0
      match listIndex? weekdaysList s1, listIndex? weekdaysList e1 with
      | some si, some ei => (weekdaysList.drop si).take (ei + 1 - si)
      | _, _ => [expr]
    | _ => [expr]
  else [expr]

/-- A categorized mass time: the `{"시간": ..., "설명": ...}` dicts in the
final results (after the `요일` key is deleted). -/
structure Entry where
  time : Str
  desc : Str
deriving DecidableEq

/-- The four schedule categories `주일미사/평일미사/토요미사/기타`. -/
inductive Cat where
  | sunday
  | weekday
  | saturday
  | other
deriving DecidableEq

/-- An entry as built during Strategy A scanning, before the `요일` key is
dropped: `{"시간": ..., "설명": ..., "요일": ...}`. -/
structure RawEntry where
  time : Str
  desc : Str
  day : Str
deriving DecidableEq

/-- A parse/handler result dict.  A `some` field models a present key; the
Python `len(dict)` is `dictSize` below. -/
structure ParsedResult where
  sunday : Option (List Entry) := none
  weekday : Option (List Entry) := none
  saturday : Option (List Entry) := none
  other : Option (List Entry) := none
  rawText : Option Str := none
  searchTerm : Option Str := none
  parsingFailed : Option Bool := none
deriving DecidableEq

def ParsedResult.catEntries (r : ParsedResult) : Cat → Option (List Entry)
  | .sunday => r.sunday
  | .weekday => r.weekday
  | .saturday => r.saturday
  | .other => r.other

def entryKey (e : Entry) : Str := e.time ++ '|' :: e.desc

/-- The `seen`-set deduplication loop shared by both strategies. -/
def dedupAux : List Entry → List Str → List Entry
  | [], _ => []
  | e :: rest, seen =>
    if entryKey e ∈ seen then dedupAux rest seen
    else e :: dedupAux rest (entryKey e :: seen)

def dedupEntries (l : List Entry) : List Entry := dedupAux l []

/-- A category key is inserted into the result dict only when its cleaned
entry list is non-empty. -/
def mkCat (l : List Entry) : Option (List Entry) :=
  if l = [] then none else some l

def sundayMarker : Str := st "[주일미사]"
def weekdayMarker : Str := st "[평일미사]"

/-- One token of the Strategy A grammar
`(오전|오후)|(day-day)|(day(?!요|은|는))|(\d{1,2}:\d{2})|(\([^)]+\))`. -/
inductive Tok where
  | ampm (s : Str)
  | dayRange (a b : Char)
  | day (c : Char)
  | time (s : Str)
  | desc (s : Str)
deriving DecidableEq

def isDayChar (c : Char) : Bool :=
  c = '월' || c = '화' || c = '수' || c = '목' || c = '금' || c = '토' || c = '일' || c = '주'

def matchAmPm (l : Str) : Option (Tok × Str) :=
  if amMarker.isPrefixOf l then some (.ampm amMarker, l.drop 2)
  else if pmMarker.isPrefixOf l then some (.ampm pmMarker, l.drop 2)
  else none

def matchDayRange (l : Str) : Option (Tok × Str) :=
  match l with
  | a :: '-' :: b :: rest =>
    if isDayChar a && isDayChar b then some (.dayRange a b, rest) else none
  | _ => none

/-- The `(?!요|은|는)` negative lookahead. -/
def badLookahead (l : Str) : Bool :=
  match l with
  | c :: _ => c = '요' || c = '은' || c = '는'
  | [] => false

def matchDay (l : Str) : Option (Tok × Str) :=
  match l with
  | c :: rest =>
    if isDayChar c && !badLookahead rest then some (.day c, rest) else none
  | [] => none

def matchTime1 (l : Str) : Option (Tok × Str) :=
  match l with
  | d1 :: ':' :: d3 :: d4 :: rest =>
    if d1.isDigit && d3.isDigit && d4.isDigit then
      some (.time [d1, ':', d3, d4], rest)
    else none
  | _ => none

/-- `\d{1,2}:\d{2}`: the greedy two-digit form is tried before the
one-digit form, as the regex engine does. -/
def matchTime (l : Str) : Option (Tok × Str) :=
  match l with
  | d1 :: d2 :: c :: d3 :: d4 :: rest =>
    if d1.isDigit && d2.isDigit && c = ':' && d3.isDigit && d4.isDigit then
      some (.time [d1, d2, ':', d3, d4], rest)
    else matchTime1 l
  | _ => matchTime1 l

/-- `\([^)]+\)`: a parenthesized annotation; the stored payload is the text
between the parentheses. -/
def matchParen (l : Str) : Option (Tok × Str) :=
  match l with
  | '(' :: rest =>
    let inside := rest.takeWhile (fun c => c ≠ ')')
    match rest.drop inside.length with
    | ')' :: after => if inside ≠ [] then some (.desc inside, after) else none
    | _ => none
  | _ => none

def matchTok (l : Str) : Option (Tok × Str) :=
  matchAmPm l <|> matchDayRange l <|> matchDay l <|> matchTime l <|> matchParen l

def tokenizeAux : Nat → Str → List Tok
  | 0, _ => []
  | fuel + 1, l =>
    match l with
    | [] => []
    | _ :: rest =>
      match matchTok l with
      | some (t, r) => t :: tokenizeAux fuel r
      | none => tokenizeAux fuel rest

/-- `finditer` of the Strategy A token pattern: scan left to right, emit
non-overlapping leftmost matches. -/
def tokenize (l : Str) : List Tok := tokenizeAux l.length l

/-- The two sequential category adjustments applied to each emitted entry:
`토` in a Sunday section re-buckets to Saturday, and `주일` in a weekday
section re-buckets to Sunday. -/
def catFor (sec : Cat) (d : Str) : Cat :=
  let c1 := if d = st "토" ∧ sec = .sunday then .saturday else sec
  if c1 = .weekday ∧ d = sundaySym then .sunday else c1

def isParen (c : Char) : Bool := c = '(' || c = ')'

/-- `desc.strip('()')` applied to the captured annotation. -/
def stripParens (l : Str) : Str :=
  ((l.dropWhile isParen).reverse.dropWhile isParen).reverse

/-- Appends a cleaned annotation to the descriptions of the `n` most
recently emitted entries (`last_added_entries`). -/
def applyDesc (clean : Str) (acc : List (Cat × RawEntry)) (n : Nat) : List (Cat × RawEntry) :=
  let k := acc.length - n
  acc.take k ++
    (acc.drop k).map (fun p =>
      (p.1, { p.2 with desc := if p.2.desc = [] then clean else p.2.desc ++ ' ' :: clean }))

/-- The per-line scanner state `{current_ampm, current_days}` together with
the entries emitted so far and the size of `last_added_entries`. -/
structure LineSt where
  ampm : Option Str
  days : List Str
  acc : List (Cat × RawEntry)
  lastN : Nat

def stepTok (sec : Cat) (s : LineSt) (t : Tok) : LineSt :=
  match t with
  | .ampm a => { s with ampm := some a }
  | .dayRange a b => { s with days := expand_days [a, '-', b] }
  | .day c => { s with days := [[c]] }
  | .time str =>
    let finalTime := normalize_time str s.ampm
    let daysToApply :=
      if s.days ≠ [] then s.days
      else if sec = .sunday then [sundaySym]
      else []
    let news := daysToApply.map (fun d => (catFor sec d, RawEntry.mk finalTime [] d))
    { s with acc := s.acc ++ news, lastN := news.length }
  | .desc d => { s with acc := applyDesc (stripParens d) s.acc s.lastN }

/-- Token-scans one stripped content line
(after `line.replace("토요일","토").replace("일요일","주일")`). -/
def lineEntries (sec : Cat) (line : Str) : List (Cat × RawEntry) :=
  let clean := replaceSub (replaceSub line (st "토요일") (st "토")) (st "일요일") sundaySym
  ((tokenize clean).foldl (stepTok sec) (LineSt.mk none [] [] 0)).acc

/-- The line loop of `_parse_daegu_style`: strips each line, switches the
current section on marker lines, scans the rest. -/
def processLines : Cat → List Str → List (Cat × RawEntry)
  | _, [] => []
  | sec, l :: rest =>
    let line := pyStrip l
    if line = [] then processLines sec rest
    else if containsSub line sundayMarker then processLines .sunday rest
    else if containsSub line weekdayMarker then processLines .weekday rest
    else lineEntries sec line ++ processLines sec rest

def filterKeywords : List Str := [st "후원회", st "교리", st "교정사목"]

def keepEntry (e : RawEntry) : Bool :=
  !(filterKeywords.any (fun kw => containsSub e.desc kw))

/-- For weekday entries whose description does not mention their day, the
day symbol is prefixed into the description. -/
def weekdayFix (cat : Cat) (e : RawEntry) : RawEntry :=
  if cat = .weekday ∧ ¬ (containsSub e.desc e.day = true) then
    { e with desc := pyStrip (e.day ++ ' ' :: e.desc) }
  else e

def entriesOf (cat : Cat) (all : List (Cat × RawEntry)) : List RawEntry :=
  (all.filter (fun p => p.1 = cat)).map (fun p => p.2)

/-- The result-cleaning loop of `_parse_daegu_style`: keyword filtering,
weekday description prefixing, then `(time, description)` deduplication. -/
def cleanCat (cat : Cat) (raw : List RawEntry) : List Entry :=
  dedupEntries
    (((raw.filter keepEntry).map (weekdayFix cat)).map (fun e => Entry.mk e.time e.desc))

/-- Matches `pat` (a literal) followed by `\s*` followed by `-`; returns
the matched span and the remainder. -/
def matchDayDash (pat : Str) (l : Str) : Option (Str × Str) :=
  if pat.isPrefixOf l then
    let after := l.drop pat.length
    let ws := after.takeWhile pySpace
    match after.drop ws.length with
    | '-' :: rest => some (pat ++ ws ++ ['-'], rest)
    | _ => none
  else none

def subDayDashFuel (pat : Str) : Nat → Str → Str
  | 0, l => l
  | _ + 1, [] => []
  | fuel + 1, c :: rest =>
    match matchDayDash pat (c :: rest) with
    | some (m, r) => '\n' :: m ++ subDayDashFuel pat fuel r
    | none => c :: subDayDashFuel pat fuel rest

/-- `re.sub(r'(pat\s*-)', r'\n\1', text)` for a literal `pat`. -/
def subDayDash (l pat : Str) : Str := subDayDashFuel pat l.length l

/-- Embedding of `_parse_daegu_style(text)` (holy_repair.py:108). -/
def parseDaeguStyle (text : Str) : ParsedResult :=
  let n1 := replaceSub text sundayMarker ('\n' :: sundayMarker ++ ['\n'])
  let n2 := replaceSub n1 weekdayMarker ('\n' :: weekdayMarker ++ ['\n'])
  let n3 := subDayDash n2 (st "토요일")
  let n4 := subDayDash n3 sundaySym
  let allE := processLines .other (splitOnChar '\n' n4)
  { rawText := some (text.take 500)
    sunday := mkCat (cleanCat .sunday (entriesOf .sunday allE))
    weekday := mkCat (cleanCat .weekday (entriesOf .weekday allE))
    saturday := mkCat (cleanCat .saturday (entriesOf .saturday allE))
    other := mkCat (cleanCat .other (entriesOf .other allE))
    searchTerm := none
    parsingFailed := none }

/-- Model of Python's `str.lower()` restricted to ASCII letters (the
classification keywords are Hangul, unaffected by lowercasing). -/
def pyLower (l : Str) : Str :=
  l.map (fun c => if 'A' ≤ c ∧ c ≤ 'Z' then Char.ofNat (c.toNat + 32) else c)

def sundayKeywords : List Str :=
  [st "주일", st "일요일", st "교중", st "청년", st "청소년"]
def saturdayKeywords : List Str := [st "토요", st "토", st "특전"]
def weekdayKeywords : List Str :=
  [st "평일", st "월", st "화", st "수", st "목", st "금"]

/-- Embedding of `_classify_mass` (holy_repair.py:285): the category the
entry is appended to, keyed on the keyword source. -/
def classifyMass (keywordSource : Str) : Cat :=
  let k := pyLower keywordSource
  if sundayKeywords.any (fun w => containsSub k w) then .sunday
  else if saturdayKeywords.any (fun w => containsSub k w) then .saturday
  else if weekdayKeywords.any (fun w => containsSub k w) then .weekday
  else .other

/-- A `\d{1,2}:\d{2}` match attempt at the head of `l` (two-digit hour
tried first), as a plain string. -/
def matchTimeStr (l : Str) : Option (Str × Str) :=
  match matchTime l with
  | some (.time s, r) => some (s, r)
  | _ => none

def findTimesFuel : Nat → Str → List Str
  | 0, _ => []
  | fuel + 1, l =>
    match l with
    | [] => []
    | _ :: rest =>
      match matchTimeStr l with
      | some (s, r) => s :: findTimesFuel fuel r
      | none => findTimesFuel fuel rest

/-- `re.findall(r'(\d{1,2}:\d{2})', line)`. -/
def findTimes (l : Str) : List Str := findTimesFuel l.length l

/-- A match attempt of `(\d{1,2}:\d{2})\s*\(([^)]+)\)` at the head of `l`. -/
def matchTimeDesc (l : Str) : Option ((Str × Str) × Str) :=
  match matchTimeStr l with
  | none => none
  | some (t, r1) =>
    let ws := r1.takeWhile pySpace
    match matchParen (r1.drop ws.length) with
    | some (.desc d, r2) => some ((t, d), r2)
    | _ => none

def findTimeDescFuel : Nat → Str → List (Str × Str)
  | 0, _ => []
  | fuel + 1, l =>
    match l with
    | [] => []
    | _ :: rest =>
      match matchTimeDesc l with
      | some (p, r) => p :: findTimeDescFuel fuel r
      | none => findTimeDescFuel fuel rest

/-- `re.findall(r'(\d{1,2}:\d{2})\s*\(([^)]+)\)', text)`. -/
def findTimeDescPairs (text : Str) : List (Str × Str) := findTimeDescFuel text.length text

def flatDays : List Str :=
  [st "월", st "화", st "수", st "목", st "금", st "토", st "주일", st "일"]

/-- Pass 1 of Strategy B: `HH:MM (description)` pairs classified by their
description text. -/
def flatPass1 (text : Str) : List (Cat × Entry) :=
  (findTimeDescPairs text).map (fun p => (classifyMass p.2, Entry.mk p.1 p.2))

/-- Pass 2 of Strategy B, for one stripped non-empty line: lines starting
with a day name yield one entry per `HH:MM` occurrence. -/
def flatLineEntries (line : Str) : List (Cat × Entry) :=
  if flatDays.any (fun d => d.isPrefixOf line) ||
      flatDays.any (fun d => (d ++ st "요일").isPrefixOf line) then
    let times := findTimes line
    if times ≠ [] then
      let dayFound := ((flatDays.find? (fun d => d.isPrefixOf line)).getD [])
      times.map (fun t =>
        (classifyMass dayFound,
         Entry.mk t (dayFound ++ st "요일 " ++ t ++ st " 미사")))
    else []
  else []

def flatPass2 (text : Str) : List (Cat × Entry) :=
  (((splitOnChar '\n' text).map pyStrip).filter (fun l => l ≠ [])).map flatLineEntries |>.flatten

def flatAllEntries (text : Str) : List (Cat × Entry) := flatPass1 text ++ flatPass2 text

/-- The deduplicated entry list of one category in Strategy B. -/
def flatCat (cat : Cat) (text : Str) : List Entry :=
  dedupEntries (((flatAllEntries text).filter (fun p => p.1 = cat)).map (fun p => p.2))

def cntNE {α : Type} [DecidableEq α] (l : List α) : Nat := if l = [] then 0 else 1

/-- The Python `len(result)` after `{k: v for k, v in result.items() if v}`:
the number of non-empty categories plus one for a non-empty raw-text
excerpt. -/
def flatSize (text : Str) : Nat :=
  cntNE (flatCat .sunday text) + cntNE (flatCat .weekday text) +
    cntNE (flatCat .saturday text) + cntNE (flatCat .other text) +
    cntNE (text.take 500)

def mkRaw (l : Str) : Option Str := if l = [] then none else some l

def mkFlatResult (text : Str) : ParsedResult :=
  { sunday := mkCat (flatCat .sunday text)
    weekday := mkCat (flatCat .weekday text)
    saturday := mkCat (flatCat .saturday text)
    other := mkCat (flatCat .other text)
    rawText := mkRaw (text.take 500)
    searchTerm := none
    parsingFailed := none }

/-- Strategy B (the Seoul/Suwon branch of `parse_mass_times_from_text`);
`none` models the Python `None` returned when `len(result) <= 1`. -/
def parseFlat (text : Str) : Option ParsedResult :=
  if flatSize text > 1 then some (mkFlatResult text) else none

def hasSectionMarkers (text : Str) : Bool :=
  containsSub text sundayMarker || containsSub text weekdayMarker

/-- Embedding of `parse_mass_times_from_text(text)` (holy_repair.py:219). -/
def parse_mass_times_from_text (text : Str) : Option ParsedResult :=
  if hasSectionMarkers text then some (parseDaeguStyle text) else parseFlat text

/-- The per-diocese navigator variants the dispatcher can return. -/
inductive Handler where
  | seoul
  | daegu
  | suwon
  | incheon
  | busan
deriving DecidableEq

/-- Embedding of `RepairCrawler.get_handler(diocese)` (holy_repair.py:443). -/
def getHandler (diocese : Str) : Option Handler :=
  let normalized := pyStrip (replaceSub (replaceSub diocese (st "천주교") []) [' '] [])
  if containsSub normalized (st "서울") then some .seoul
  else if containsSub normalized (st "대구") then some .daegu
  else if containsSub normalized (st "수원") then some .suwon
  else if containsSub normalized (st "인천") then some .incheon
  else if containsSub normalized (st "부산") then some .busan
  else none

/-- The address-substring chain of `infer_diocese`, abstracted over the
containment test so that its value is determined by the test's answers on
the fixed key set. -/
def inferDioceseB (f : Str → Bool) : Str :=
  if f (st "서울") then st "서울대교구"
  else if f (st "대구") then st "대구대교구"
  else if f (st "광주") then st "광주대교구"
  else if f (st "제주") then st "제주교구"
  else if f (st "대전") || f (st "세종") || f (st "충남") || f (st "충청남도") then st "대전교구"
  else if f (st "부산") then st "부산교구"
  else if f (st "인천") then st "인천교구"
  else if f (st "전북") || f (st "전라북도") then st "전주교구"
  else if f (st "충북") || f (st "충청북도") then st "청주교구"
  else if f (st "강원") || f (st "강원도") then
    (if f (st "원주") then st "원주교구" else st "춘천교구")
  else if f (st "경기") then
    (if f (st "수원") || f (st "성남") || f (st "용인") || f (st "안양") ||
        f (st "안산") || f (st "화성") || f (st "평택") then st "수원교구"
     else if f (st "고양") || f (st "의정부") || f (st "파주") ||
        f (st "남양주") || f (st "구리") then st "의정부교구"
     else if f (st "부천") || f (st "김포") then st "인천교구"
     else st "수원교구")
  else []

/-- Embedding of `RepairCrawler.infer_diocese(address)` (holy_repair.py:415). -/
def inferDiocese (address : Str) : Str :=
  if address = [] then [] else inferDioceseB (fun k => containsSub address k)

/-- Every address substring the inference chain tests. -/
def allDioceseKeys : List Str :=
  [st "서울", st "대구", st "광주", st "제주", st "대전", st "세종", st "충남",
   st "충청남도", st "부산", st "인천", st "전북", st "전라북도", st "충북",
   st "충청북도", st "강원", st "강원도", st "원주", st "경기", st "수원",
   st "성남", st "용인", st "안양", st "안산", st "화성", st "평택", st "고양",
   st "의정부", st "파주", st "남양주", st "구리", st "부천", st "김포"]

/-- The direct substring-to-diocese associations of the inference table
(the entries whose key alone determines the diocese). -/
def tkv : Nat → Str × Str
  | 0 => (st "서울", st "서울대교구")
  | 1 => (st "대구", st "대구대교구")
  | 2 => (st "광주", st "광주대교구")
  | 3 => (st "제주", st "제주교구")
  | 4 => (st "대전", st "대전교구")
  | 5 => (st "세종", st "대전교구")
  | 6 => (st "충남", st "대전교구")
  | 7 => (st "충청남도", st "대전교구")
  | 8 => (st "부산", st "부산교구")
  | 9 => (st "인천", st "인천교구")
  | 10 => (st "전북", st "전주교구")
  | 11 => (st "전라북도", st "전주교구")
  | 12 => (st "충북", st "청주교구")
  | 13 => (st "충청북도", st "청주교구")
  | 14 => (st "강원", st "춘천교구")
  | _ => (st "경기", st "수원교구")

/-- One input record (`post`), with the keys the orchestrator touches;
records are assumed to carry their keys (`post.get` defaults are the empty
string / absent bookkeeping). -/
structure Post where
  churchName : Str
  diocese : Str
  address : Str
  repairedMassTimes : Option ParsedResult := none
  repairSource : Option Str := none
  repairTimestamp : Option Str := none
deriving DecidableEq

/-- What one `handler(page, church_name, post)` call did: returned a value,
or raised (any exception caught by the per-record `except`). -/
inductive HandlerOutcome where
  | ok (r : Option ParsedResult)
  | err
deriving DecidableEq

/-- The orchestrator's accumulators: the `stats` counters and the
`repaired_posts` / `failed_posts` output lists. -/
structure OrchState where
  total : Nat
  success : Nat
  failed : Nat
  repairedPosts : List Post
  failedPosts : List Post
deriving DecidableEq

/-- Python `len(result_data)`: the number of present keys of the dict. -/
def dictSize (r : ParsedResult) : Nat :=
  (r.sunday.map (fun _ => 1)).getD 0 + (r.weekday.map (fun _ => 1)).getD 0 +
    (r.saturday.map (fun _ => 1)).getD 0 + (r.other.map (fun _ => 1)).getD 0 +
    (r.rawText.map (fun _ => 1)).getD 0 + (r.searchTerm.map (fun _ => 1)).getD 0 +
    (r.parsingFailed.map (fun _ => 1)).getD 0

/-- `church_name = post.get('church_name', '').replace("성당", "").strip()`. -/
def effChurch (p : Post) : Str := pyStrip (replaceSub p.churchName (st "성당") [])

/-- The diocese used for dispatch: the record's own, or the one inferred
from the address when the record's is empty. -/
def effDiocese (p : Post) : Str :=
  if p.diocese = [] then inferDiocese p.address else p.diocese

/-- The success bookkeeping: `repaired_mass_times`, `repair_source` and
`repair_timestamp` are written onto the record. -/
def applyBookkeeping (p : Post) (d : ParsedResult) (ts : Str) : Post :=
  { p with repairedMassTimes := some d
           repairSource := some (st "holy_repair_crawler")
           repairTimestamp := some ts }

/-- Embedding of one iteration of the record loop of
`RepairCrawler.process_single_file` (holy_repair.py:362), with the
browser-driven handler call abstracted as `oracle`. -/
def stepPost (oracle : Handler → Str → Post → HandlerOutcome) (ts : Str)
    (s : OrchState) (p : Post) : OrchState :=
  if effChurch p = [] ∨ effDiocese p = [] then s
  else
    match getHandler (effDiocese p) with
    | none => { s with failedPosts := s.failedPosts ++ [p] }
    | some h =>
      let s1 := { s with total := s.total + 1 }
      match oracle h (effChurch p) p with
      | .err =>
        { s1 with failed := s1.failed + 1, failedPosts := s1.failedPosts ++ [p] }
      | .ok none =>
        { s1 with failed := s1.failed + 1, failedPosts := s1.failedPosts ++ [p] }
      | .ok (some d) =>
        if dictSize d > 1 then
          { s1 with success := s1.success + 1,
                    repairedPosts := s1.repairedPosts ++ [applyBookkeeping p d ts] }
        else
          { s1 with failed := s1.failed + 1, failedPosts := s1.failedPosts ++ [p] }

/-- The record loop over a whole input batch. -/
def runPosts (oracle : Handler → Str → Post → HandlerOutcome) (ts : Str)
    (s : OrchState) (posts : List Post) : OrchState :=
  posts.foldl (stepPost oracle ts) s

def orchSt0 : OrchState := ⟨0, 0, 0, [], []⟩

def c2Input : Str := st "[주일미사] 오전 10:00 [평일미사] 오후 7:00"

def c7Text : Str := st "주일 9:00"

def c1Marker : ParsedResult :=
  { rawText := some (st "검색결과 본문"), searchTerm := some (st "명동"),
    parsingFailed := some true }

def c1Oracle : Handler → Str → Post → HandlerOutcome := fun _ _ _ => .ok (some c1Marker)

def c1Post : Post := { churchName := st "명동성당", diocese := st "서울대교구", address := [] }

def w1Dict : ParsedResult := { rawText := some (st "본문"), searchTerm := some (st "성루카") }

def w1Oracle : Handler → Str → Post → HandlerOutcome := fun _ _ _ => .ok (some w1Dict)

def w1Post : Post := { churchName := st "성루카성당", diocese := st "대구대교구", address := [] }

def w10Oracle : Handler → Str → Post → HandlerOutcome := fun _ _ _ => .ok none

def w10Post : Post := { churchName := st "계산", diocese := st "대구대교구", address := [] }

def wsym (n : Nat) : Str :=
  match n with
  | 0 => st "월"
  | 1 => st "화"
  | 2 => st "수"
  | 3 => st "목"
  | 4 => st "금"
  | 5 => st "토"
  | 6 => st "일"
  | _ => st "주일"

/-- The index used for slicing after the `일 -> 주일` endpoint rewrite. -/
def adjIdx (n : Nat) : Nat := if n = 6 then 7 else n

/-- C4 counterexample: a reversed range returns the empty sequence, not the
original expression, and a range ending in Sunday returns a slice of the
8-symbol list containing both Sunday symbols, not a 7-symbol-cycle slice. -/
theorem c4_counterexample :
    expand_days (st "토-월") = [] ∧
    expand_days (st "금-일") = [st "금", st "토", st "일", st "주일"] := by decide

/-- C4 (amended): for `a-b` with both endpoints in the code's 8-symbol list
(`일` endpoints rewritten to `주일`), `expand_days` returns the inclusive
slice of that 8-symbol list between the rewritten indices — empty when the
start index exceeds the end index — and any unresolvable endpoint degrades
to the original expression as a single-element sequence; it never raises. -/
theorem c4_expand_days_ranges :
    (∀ i j : Fin 8,
       expand_days (wsym i.val ++ '-' :: wsym j.val) =
         (weekdaysList.drop (adjIdx i.val)).take (adjIdx j.val + 1 - adjIdx i.val))
    ∧ (∀ expr s0 e0, containsSub expr dailyMarker = false →
        expr.any (fun c => c = '-') = true →
        splitOnChar '-' expr = [s0, e0] →
        (listIndex? weekdaysList (if s0 = st "일" then sundaySym else s0) = none ∨
          listIndex? weekdaysList (if e0 = st "일" then sundaySym else e0) = none) →
        expand_days expr = [expr]) := by
  constructor
  · decide
  · intro expr s0 e0 hd hdash hsplit hbad
    simp only [expand_days, hd, hdash, hsplit, Bool.false_eq_true, if_false, if_true]
    rcases hbad with h | h
    · rw [h]
    · rw [h]
      cases listIndex? weekdaysList (if s0 = st "일" then sundaySym else s0) <;> rfl

/-- C4 witness: a concrete in-order range and a concrete invalid endpoint. -/
theorem c4_witness :
    expand_days (wsym 0 ++ '-' :: wsym 4) =
      (weekdaysList.drop (adjIdx 0)).take (adjIdx 4 + 1 - adjIdx 0) ∧
    expand_days (st "월-왕") = [st "월-왕"] :=
  ⟨c4_expand_days_ranges.1 ⟨0, by decide⟩ ⟨4, by decide⟩,
   c4_expand_days_ranges.2 (st "월-왕") (st "월") (st "왕") (by decide) (by decide)
     (by decide) (Or.inr (by decide))⟩

/-- C5 counterexample: the `매일` expansion has seven symbols and contains
the Sunday symbol `주일`, which the claim says is excluded. -/
theorem c5_counterexample :
    expand_days (st "매일") =
      [st "월", st "화", st "수", st "목", st "금", st "토", st "주일"] ∧
    sundaySym ∈ expand_days (st "매일") ∧
    (expand_days (st "매일")).length = 7 := by decide

/-- C5 (amended): every expression containing the daily marker `매일`
expands to the seven symbols Monday through Saturday plus the Sunday symbol
`주일` (Sunday included). -/
theorem c5_daily_includes_sunday :
    ∀ expr, containsSub expr dailyMarker = true →
      expand_days expr =
        [st "월", st "화", st "수", st "목", st "금", st "토", st "주일"] := by
  intro expr h
  simp only [expand_days, h, if_true]

/-- C5 witness. -/
theorem c5_witness :
    expand_days (st "매일 미사") =
      [st "월", st "화", st "수", st "목", st "금", st "토", st "주일"] :=
  c5_daily_includes_sunday (st "매일 미사") (by decide)

lemma normalize_time_eq (s a : Str) (h m : Nat) (hp : parseHM s = some (h, m)) :
    normalize_time s (some a) =
      if a = pmMarker ∧ h < 12 then renderTime (h + 12) m
      else if a = amMarker ∧ h = 12 then renderTime 0 m
      else renderTime h m := by
  unfold normalize_time
  rw [hp]

/-- C6: `normalize_time` produces zero-padded 24-hour `HH:MM`: PM adds 12
to hours 1-11 and leaves the hour value 12 unchanged; AM maps hour 12 to 0
and passes other hour values through; a missing meridiem returns the input
unmodified; malformed (non-numeric) input is returned unchanged; plus the
four concrete examples of the claim. -/
theorem c6_normalize_time_spec :
    (∀ t, normalize_time t none = t)
    ∧ (∀ s a, parseHM s = none → normalize_time s (some a) = s)
    ∧ (∀ s h m, parseHM s = some (h, m) → 1 ≤ h → h ≤ 11 →
        normalize_time s (some pmMarker) = renderTime (h + 12) m)
    ∧ (∀ s m, parseHM s = some (12, m) →
        normalize_time s (some pmMarker) = renderTime 12 m)
    ∧ (∀ s m, parseHM s = some (12, m) →
        normalize_time s (some amMarker) = renderTime 0 m)
    ∧ (∀ s h m, parseHM s = some (h, m) → h ≠ 12 →
        normalize_time s (some amMarker) = renderTime h m)
    ∧ normalize_time (st "12:00") (some pmMarker) = st "12:00"
    ∧ normalize_time (st "12:30") (some amMarker) = st "00:30"
    ∧ normalize_time (st "3:00") (some pmMarker) = st "15:00"
    ∧ normalize_time (st "7:00") none = st "7:00" := by
  refine ⟨fun t => rfl, ?_, ?_, ?_, ?_, ?_, by decide, by decide, by decide, by decide⟩
  · intro s a hp
    simp only [normalize_time, hp]
  · intro s h m hp h1 h2
    rw [normalize_time_eq s pmMarker h m hp, if_pos ⟨rfl, by omega⟩]
  · intro s m hp
    rw [normalize_time_eq s pmMarker 12 m hp,
        if_neg (fun hc => absurd hc.2 (by omega)),
        if_neg (fun hc => absurd hc.1 (by decide))]
  · intro s m hp
    rw [normalize_time_eq s amMarker 12 m hp,
        if_neg (fun hc => absurd hc.1 (by decide)), if_pos ⟨rfl, rfl⟩]
  · intro s h m hp h12
    rw [normalize_time_eq s amMarker h m hp,
        if_neg (fun hc => absurd hc.1 (by decide)),
        if_neg (fun hc => h12 hc.2)]

/-- C6 witness. -/
theorem c6_witness :
    normalize_time (st "9:15") (some pmMarker) = renderTime (9 + 12) 15 ∧
    normalize_time (st "오전만") (some amMarker) = st "오전만" :=
  ⟨c6_normalize_time_spec.2.2.1 (st "9:15") 9 15 (by decide) (by decide) (by decide),
   c6_normalize_time_spec.2.1 (st "오전만") amMarker (by decide)⟩

/-- C2 counterexample: on the claim's sectioned input, the weekday category
is absent from the result (the claim says it contains an entry with time
`19:00`). -/
theorem c2_counterexample :
    (parse_mass_times_from_text c2Input).map ParsedResult.weekday = some none := by
  decide

/-- C2 (amended): on the claim's sectioned input, the Sunday category
contains the entry with time `10:00` (via the Sunday section's implicit
day), but the weekday section's PM time emits no entry — only the Sunday
section has an implicit day — so the weekday category is absent. -/
theorem c2_sectioned_parse :
    parse_mass_times_from_text c2Input =
      some { rawText := some c2Input,
             sunday := some [Entry.mk (st "10:00") []],
             weekday := none, saturday := none, other := none,
             searchTerm := none, parsingFailed := none } := by
  decide

/-- C9: whenever the input text contains a section marker, the parser
returns the Strategy A result, which always carries the raw-text excerpt —
so a sectioned text never yields `None`, even with zero recognized
entries; only the flat Strategy B can return `None`. -/
theorem c9_sectioned_never_none :
    ∀ text, hasSectionMarkers text = true →
      parse_mass_times_from_text text = some (parseDaeguStyle text) ∧
      (parseDaeguStyle text).rawText = some (text.take 500) := by
  intro text h
  exact ⟨by simp [parse_mass_times_from_text, h], rfl⟩

/-- C9 witness: an unparseable sectioned text still yields a non-`None`
result. -/
theorem c9_witness :
    parse_mass_times_from_text (st "[주일미사] 안내 없음") =
      some (parseDaeguStyle (st "[주일미사] 안내 없음")) ∧
    (parseDaeguStyle (st "[주일미사] 안내 없음")).rawText =
      some ((st "[주일미사] 안내 없음").take 500) :=
  c9_sectioned_never_none (st "[주일미사] 안내 없음") (by decide)

lemma take500_ne_nil (l : Str) (h : l ≠ []) : l.take 500 ≠ [] := by
  cases l with
  | nil => exact absurd rfl h
  | cons c t =>
    intro hc
    have := congrArg List.length hc
    simp [List.length_take] at this

lemma cntNE_eq_zero {α : Type} [DecidableEq α] (l : List α) : cntNE l = 0 ↔ l = [] := by
  unfold cntNE
  split <;> simp_all

lemma cntNE_one {α : Type} [DecidableEq α] (l : List α) (h : l ≠ []) : cntNE l = 1 := by
  unfold cntNE
  split <;> simp_all

/-- C3 counterexample: a flat text whose entries land in exactly one
category (only `주일미사` is non-empty) is returned as a success, not
discarded as `None` — the `len(result) > 1` test also counts the raw-text
key. -/
theorem c3_counterexample :
    parse_mass_times_from_text (st "주일 10:00") =
      some { rawText := some (st "주일 10:00"),
             sunday := some [Entry.mk (st "10:00") (st "주일요일 10:00 미사")],
             weekday := none, saturday := none, other := none,
             searchTerm := none, parsingFailed := none } ∧
    parse_mass_times_from_text (st "주일 10:00") ≠ none := by
  constructor
  · decide
  · decide

/-- C3 (amended): for non-empty marker-free text, Strategy B returns `None`
exactly when all four categories are empty after classification and
deduplication (the raw-text key keeps the filtered dict at size one, so a
single non-empty category already counts as success); in particular a text
that is one isolated `HH:MM` mention yields `None`. -/
theorem c3_flat_none_iff :
    (∀ text, text ≠ [] → hasSectionMarkers text = false →
      ((parse_mass_times_from_text text = none) ↔
        (flatCat .sunday text = [] ∧ flatCat .weekday text = [] ∧
         flatCat .saturday text = [] ∧ flatCat .other text = []))) ∧
    parse_mass_times_from_text (st "10:30") = none := by
  constructor
  · intro text hne hnm
    have hraw : cntNE (text.take 500) = 1 := cntNE_one _ (take500_ne_nil _ hne)
    have hsz : flatSize text =
        cntNE (flatCat .sunday text) + cntNE (flatCat .weekday text) +
          cntNE (flatCat .saturday text) + cntNE (flatCat .other text) + 1 := by
      rw [flatSize, hraw]
    rw [show parse_mass_times_from_text text = parseFlat text by
          simp [parse_mass_times_from_text, hnm]]
    constructor
    · intro h
      have hle : ¬ flatSize text > 1 := by
        intro hgt
        rw [parseFlat, if_pos hgt] at h
        exact Option.noConfusion h
      refine ⟨?_, ?_, ?_, ?_⟩ <;>
        · rw [← cntNE_eq_zero]
          omega
    · rintro ⟨h1, h2, h3, h4⟩
      have hone : flatSize text = 1 := by
        rw [hsz, (cntNE_eq_zero _).mpr h1, (cntNE_eq_zero _).mpr h2,
            (cntNE_eq_zero _).mpr h3, (cntNE_eq_zero _).mpr h4]
      rw [parseFlat, if_neg (by omega)]
  · decide

/-- C3 witness: a plain informational text with no recognizable schedule. -/
theorem c3_witness :
    (parse_mass_times_from_text (st "사무실 안내") = none) ↔
      (flatCat .sunday (st "사무실 안내") = [] ∧ flatCat .weekday (st "사무실 안내") = [] ∧
       flatCat .saturday (st "사무실 안내") = [] ∧ flatCat .other (st "사무실 안내") = []) :=
  c3_flat_none_iff.1 (st "사무실 안내") (by decide) (by decide)

lemma dedupAux_key_not_mem :
    ∀ (l : List Entry) (seen : List Str) (e : Entry),
      e ∈ dedupAux l seen → entryKey e ∉ seen := by
  intro l
  induction l with
  | nil => intro seen e he; simp [dedupAux] at he
  | cons x xs ih =>
    intro seen e he
    by_cases hx : entryKey x ∈ seen
    · rw [dedupAux, if_pos hx] at he
      exact ih seen e he
    · rw [dedupAux, if_neg hx] at he
      rcases List.mem_cons.mp he with heq | hmem
      · rw [heq]; exact hx
      · have hnot := ih _ _ hmem
        exact fun hcon => hnot (List.mem_cons_of_mem _ hcon)

lemma dedupAux_pairwise_key :
    ∀ (l : List Entry) (seen : List Str),
      (dedupAux l seen).Pairwise (fun a b => entryKey a ≠ entryKey b) := by
  intro l
  induction l with
  | nil => intro seen; simp [dedupAux]
  | cons x xs ih =>
    intro seen
    by_cases hx : entryKey x ∈ seen
    · rw [dedupAux, if_pos hx]; exact ih seen
    · rw [dedupAux, if_neg hx]
      refine List.Pairwise.cons ?_ (ih _)
      intro b hb hcon
      exact dedupAux_key_not_mem _ _ _ hb (List.mem_cons.mpr (Or.inl hcon.symm))

lemma mkCat_dedup_some (X l : List Entry) (h : mkCat (dedupEntries X) = some l) :
    l ≠ [] ∧ l.Pairwise (fun a b => ¬ (a.time = b.time ∧ a.desc = b.desc)) := by
  rw [mkCat] at h
  split at h
  · exact Option.noConfusion h
  · rename_i hne
    injection h with heq
    rw [← heq]
    refine ⟨hne, List.Pairwise.imp ?_ (dedupAux_pairwise_key X [])⟩
    intro a b hk hcon
    exact hk (by rw [entryKey, entryKey, hcon.1, hcon.2])

/-- C7: in every result the parser returns (either strategy), a category
key is present only with a non-empty entry list, and no category list
contains two entries with the same `(time, description)` pair. -/
theorem c7_dedup_invariant :
    ∀ text r, parse_mass_times_from_text text = some r →
      ∀ c l, r.catEntries c = some l →
        l ≠ [] ∧ l.Pairwise (fun a b => ¬ (a.time = b.time ∧ a.desc = b.desc)) := by
  intro text r hr c l hl
  rw [parse_mass_times_from_text] at hr
  split at hr
  · injection hr with heq
    rw [← heq] at hl
    cases c <;>
      · simp only [ParsedResult.catEntries, parseDaeguStyle, cleanCat] at hl
        exact mkCat_dedup_some _ _ hl
  · rw [parseFlat] at hr
    split at hr
    · injection hr with heq
      rw [← heq] at hl
      cases c <;>
        · simp only [ParsedResult.catEntries, mkFlatResult, flatCat] at hl
          exact mkCat_dedup_some _ _ hl
    · exact Option.noConfusion hr

/-- C7 witness: the concrete Sunday category of a parsed flat text. -/
theorem c7_witness :
    [Entry.mk (st "9:00") (st "주일요일 9:00 미사")] ≠ [] ∧
    ([Entry.mk (st "9:00") (st "주일요일 9:00 미사")]).Pairwise
      (fun a b => ¬ (a.time = b.time ∧ a.desc = b.desc)) :=
  c7_dedup_invariant c7Text
    { rawText := some c7Text,
      sunday := some [Entry.mk (st "9:00") (st "주일요일 9:00 미사")] }
    (by decide) .sunday [Entry.mk (st "9:00") (st "주일요일 9:00 미사")] (by decide)

lemma containsSub_ne_nil (a k : Str) (h : containsSub a k = true) (hk : k ≠ []) :
    a ≠ [] := by
  intro ha
  subst ha
  cases k with
  | nil => exact hk rfl
  | cons c cs =>
    have hf : containsSub ([] : Str) (c :: cs) = false := rfl
    rw [hf] at h
    exact Bool.noConfusion h

lemma inferDioceseB_congr (f g : Str → Bool)
    (h : ∀ k ∈ allDioceseKeys, f k = g k) : inferDioceseB f = inferDioceseB g := by
  have e1 : f (st "서울") = g (st "서울") := h _ (by decide)
  have e2 : f (st "대구") = g (st "대구") := h _ (by decide)
  have e3 : f (st "광주") = g (st "광주") := h _ (by decide)
  have e4 : f (st "제주") = g (st "제주") := h _ (by decide)
  have e5 : f (st "대전") = g (st "대전") := h _ (by decide)
  have e6 : f (st "세종") = g (st "세종") := h _ (by decide)
  have e7 : f (st "충남") = g (st "충남") := h _ (by decide)
  have e8 : f (st "충청남도") = g (st "충청남도") := h _ (by decide)
  have e9 : f (st "부산") = g (st "부산") := h _ (by decide)
  have e10 : f (st "인천") = g (st "인천") := h _ (by decide)
  have e11 : f (st "전북") = g (st "전북") := h _ (by decide)
  have e12 : f (st "전라북도") = g (st "전라북도") := h _ (by decide)
  have e13 : f (st "충북") = g (st "충북") := h _ (by decide)
  have e14 : f (st "충청북도") = g (st "충청북도") := h _ (by decide)
  have e15 : f (st "강원") = g (st "강원") := h _ (by decide)
  have e16 : f (st "강원도") = g (st "강원도") := h _ (by decide)
  have e17 : f (st "원주") = g (st "원주") := h _ (by decide)
  have e18 : f (st "경기") = g (st "경기") := h _ (by decide)
  have e19 : f (st "수원") = g (st "수원") := h _ (by decide)
  have e20 : f (st "성남") = g (st "성남") := h _ (by decide)
  have e21 : f (st "용인") = g (st "용인") := h _ (by decide)
  have e22 : f (st "안양") = g (st "안양") := h _ (by decide)
  have e23 : f (st "안산") = g (st "안산") := h _ (by decide)
  have e24 : f (st "화성") = g (st "화성") := h _ (by decide)
  have e25 : f (st "평택") = g (st "평택") := h _ (by decide)
  have e26 : f (st "고양") = g (st "고양") := h _ (by decide)
  have e27 : f (st "의정부") = g (st "의정부") := h _ (by decide)
  have e28 : f (st "파주") = g (st "파주") := h _ (by decide)
  have e29 : f (st "남양주") = g (st "남양주") := h _ (by decide)
  have e30 : f (st "구리") = g (st "구리") := h _ (by decide)
  have e31 : f (st "부천") = g (st "부천") := h _ (by decide)
  have e32 : f (st "김포") = g (st "김포") := h _ (by decide)
  simp only [inferDioceseB, e1, e2, e3, e4, e5, e6, e7, e8, e9, e10, e11, e12, e13,
    e14, e15, e16, e17, e18, e19, e20, e21, e22, e23, e24, e25, e26, e27, e28, e29,
    e30, e31, e32]

lemma inferDioceseB_table : ∀ i : Fin 16,
    inferDioceseB (fun k => k == (tkv i.val).1) = (tkv i.val).2 := by decide

lemma tkv_key_ne_nil : ∀ i : Fin 16, (tkv i.val).1 ≠ [] := by decide

lemma inferDioceseB_wonju : ∀ b : Bool,
    inferDioceseB (fun k => k == st "원주" || k == st "강원" || (k == st "강원도" && b)) =
      st "원주교구" := by decide

lemma inferDioceseB_chuncheon : ∀ b : Bool,
    inferDioceseB (fun k => k == st "강원" || (k == st "강원도" && b)) =
      st "춘천교구" := by decide

lemma inferDioceseB_nomatch : inferDioceseB (fun _ => false) = [] := by decide

/-- C8: with empty record diocese, inference goes by address substrings:
an address containing exactly one key of the direct province/city table
resolves to that key's diocese; a Gangwon address containing 원주 resolves
to 원주교구 and other Gangwon addresses to 춘천교구; an address matching no
table key infers to the empty string, and the dispatcher returns no
handler for the empty diocese. -/
theorem c8_infer_diocese_spec :
    (∀ (i : Fin 16) a, containsSub a (tkv i.val).1 = true →
       (∀ k ∈ allDioceseKeys, k ≠ (tkv i.val).1 → containsSub a k = false) →
       inferDiocese a = (tkv i.val).2)
    ∧ (∀ a, containsSub a (st "원주") = true → containsSub a (st "강원") = true →
       (∀ k ∈ allDioceseKeys, k ≠ st "원주" → k ≠ st "강원" → k ≠ st "강원도" →
         containsSub a k = false) →
       inferDiocese a = st "원주교구")
    ∧ (∀ a, containsSub a (st "강원") = true →
       (∀ k ∈ allDioceseKeys, k ≠ st "강원" → k ≠ st "강원도" →
         containsSub a k = false) →
       inferDiocese a = st "춘천교구")
    ∧ (∀ a, (∀ k ∈ allDioceseKeys, containsSub a k = false) → inferDiocese a = [])
    ∧ getHandler [] = none := by
  refine ⟨?_, ?_, ?_, ?_, by decide⟩
  · intro i a hk hno
    have hane : a ≠ [] := containsSub_ne_nil a _ hk (tkv_key_ne_nil i)
    rw [inferDiocese, if_neg hane]
    have hfg : ∀ k ∈ allDioceseKeys, containsSub a k = (k == (tkv i.val).1) := by
      intro k hkmem
      by_cases hke : k = (tkv i.val).1
      · rw [hke, hk]
        exact (beq_self_eq_true _).symm
      · rw [hno k hkmem hke]
        exact (beq_eq_false_iff_ne.mpr hke).symm
    rw [inferDioceseB_congr _ _ hfg]
    exact inferDioceseB_table i
  · intro a hwj hgw hno
    have hane : a ≠ [] := containsSub_ne_nil a _ hwj (by decide)
    rw [inferDiocese, if_neg hane]
    cases hgd : containsSub a (st "강원도") with
    | false =>
      have hfg : ∀ k ∈ allDioceseKeys, containsSub a k =
          (k == st "원주" || k == st "강원" || (k == st "강원도" && false)) := by
        intro k hkmem
        by_cases h1 : k = st "원주"
        · rw [h1, hwj]; decide
        · by_cases h2 : k = st "강원"
          · rw [h2, hgw]; decide
          · by_cases h3 : k = st "강원도"
            · rw [h3, hgd]; decide
            · rw [hno k hkmem h1 h2 h3, beq_eq_false_iff_ne.mpr h1,
                  beq_eq_false_iff_ne.mpr h2, beq_eq_false_iff_ne.mpr h3]
              rfl
      rw [inferDioceseB_congr _ _ hfg]
      exact inferDioceseB_wonju false
    | true =>
      have hfg : ∀ k ∈ allDioceseKeys, containsSub a k =
          (k == st "원주" || k == st "강원" || (k == st "강원도" && true)) := by
        intro k hkmem
        by_cases h1 : k = st "원주"
        · rw [h1, hwj]; decide
        · by_cases h2 : k = st "강원"
          · rw [h2, hgw]; decide
          · by_cases h3 : k = st "강원도"
            · rw [h3, hgd]; decide
            · rw [hno k hkmem h1 h2 h3, beq_eq_false_iff_ne.mpr h1,
                  beq_eq_false_iff_ne.mpr h2, beq_eq_false_iff_ne.mpr h3]
              rfl
      rw [inferDioceseB_congr _ _ hfg]
      exact inferDioceseB_wonju true
  · intro a hgw hno
    have hane : a ≠ [] := containsSub_ne_nil a _ hgw (by decide)
    rw [inferDiocese, if_neg hane]
    cases hgd : containsSub a (st "강원도") with
    | false =>
      have hfg : ∀ k ∈ allDioceseKeys, containsSub a k =
          (k == st "강원" || (k == st "강원도" && false)) := by
        intro k hkmem
        by_cases h2 : k = st "강원"
        · rw [h2, hgw]; decide
        · by_cases h3 : k = st "강원도"
          · rw [h3, hgd]; decide
          · rw [hno k hkmem h2 h3, beq_eq_false_iff_ne.mpr h2,
                beq_eq_false_iff_ne.mpr h3]
            rfl
      rw [inferDioceseB_congr _ _ hfg]
      exact inferDioceseB_chuncheon false
    | true =>
      have hfg : ∀ k ∈ allDioceseKeys, containsSub a k =
          (k == st "강원" || (k == st "강원도" && true)) := by
        intro k hkmem
        by_cases h2 : k = st "강원"
        · rw [h2, hgw]; decide
        · by_cases h3 : k = st "강원도"
          · rw [h3, hgd]; decide
          · rw [hno k hkmem h2 h3, beq_eq_false_iff_ne.mpr h2,
                beq_eq_false_iff_ne.mpr h3]
            rfl
      rw [inferDioceseB_congr _ _ hfg]
      exact inferDioceseB_chuncheon true
  · intro a hall
    by_cases hane : a = []
    · rw [inferDiocese, if_pos hane]
    · rw [inferDiocese, if_neg hane]
      have hfg : ∀ k ∈ allDioceseKeys, containsSub a k = false := hall
      rw [inferDioceseB_congr (fun k => containsSub a k) (fun _ => false) hfg]
      exact inferDioceseB_nomatch

/-- C8 witness: a unique-city address and the Gangwon disambiguation at
concrete addresses. -/
theorem c8_witness :
    inferDiocese (st "제주시 조천읍") = st "제주교구" ∧
    inferDiocese (st "강원도 원주시") = st "원주교구" ∧
    inferDiocese (st "강원도 춘천시") = st "춘천교구" :=
  by
  refine ⟨?_, ?_, ?_⟩
  · exact c8_infer_diocese_spec.1 ⟨3, by decide⟩ (st "제주시 조천읍") (by decide) (by decide)
  · exact c8_infer_diocese_spec.2.1 (st "강원도 원주시") (by decide) (by decide) (by decide)
  · exact c8_infer_diocese_spec.2.2.1 (st "강원도 춘천시") (by decide) (by decide)

/-- C1 counterexample: a handler result that is the Seoul parser-failure
marker (raw text, search term, explicit failure flag, no categorized
entries) has three keys, so `len(result_data) > 1` classifies it as a
success: the record gets bookkeeping and lands in the repaired batch, and
the failed list stays empty — the opposite of the claim. -/
theorem c1_counterexample :
    (stepPost c1Oracle (st "2025-01-01") orchSt0 c1Post).failedPosts = [] ∧
    (stepPost c1Oracle (st "2025-01-01") orchSt0 c1Post).repairedPosts =
      [applyBookkeeping c1Post c1Marker (st "2025-01-01")] ∧
    (stepPost c1Oracle (st "2025-01-01") orchSt0 c1Post).success = 1 := by decide

/-- C1 (amended): a handler result with no categorized entries counts as
failure only when it has at most one present key (the bare raw-text-only
marker): then the record goes unmodified to the failed list with no
bookkeeping and stays out of the repaired batch; with two or more present
keys (raw text plus search term and/or failure flag) it is classified as a
success, receives bookkeeping and is written to the repaired batch. -/
theorem c1_marker_size_classification :
    ∀ (oracle : Handler → Str → Post → HandlerOutcome) (ts : Str) (s : OrchState)
      (p : Post) (hd : Handler) (d : ParsedResult),
      effChurch p ≠ [] → effDiocese p ≠ [] →
      getHandler (effDiocese p) = some hd →
      oracle hd (effChurch p) p = .ok (some d) →
      d.sunday = none → d.weekday = none → d.saturday = none → d.other = none →
      ((dictSize d ≤ 1 →
         stepPost oracle ts s p =
           { s with total := s.total + 1, failed := s.failed + 1,
                    failedPosts := s.failedPosts ++ [p] }) ∧
       (1 < dictSize d →
         stepPost oracle ts s p =
           { s with total := s.total + 1, success := s.success + 1,
                    repairedPosts := s.repairedPosts ++ [applyBookkeeping p d ts] })) := by
  intro oracle ts s p hd d hcn hdio hh ho _ _ _ _
  have hcond : ¬ (effChurch p = [] ∨ effDiocese p = []) := by
    push_neg
    exact ⟨hcn, hdio⟩
  constructor
  · intro hle
    simp only [stepPost, if_neg hcond, hh, ho]
    rw [if_neg (by omega)]
  · intro hgt
    simp only [stepPost, if_neg hcond, hh, ho]
    rw [if_pos (by omega)]

/-- C1 witness: a two-key marker (raw text plus search term) is classified
as a success. -/
theorem c1_witness :
    stepPost w1Oracle (st "ts") orchSt0 w1Post =
      { orchSt0 with total := orchSt0.total + 1, success := orchSt0.success + 1,
                     repairedPosts :=
                       orchSt0.repairedPosts ++ [applyBookkeeping w1Post w1Dict (st "ts")] } :=
  (c1_marker_size_classification w1Oracle (st "ts") orchSt0 w1Post .daegu w1Dict
    (by decide) (by decide) (by decide) rfl rfl rfl rfl rfl).2 (by decide)

lemma stepPost_counters (oracle : Handler → Str → Post → HandlerOutcome) (ts : Str)
    (s : OrchState) (p : Post) (hinv : s.total = s.success + s.failed) :
    (stepPost oracle ts s p).total =
      (stepPost oracle ts s p).success + (stepPost oracle ts s p).failed := by
  simp only [stepPost]
  repeat' split
  all_goals try dsimp only
  all_goals omega

lemma stepPost_mono (oracle : Handler → Str → Post → HandlerOutcome) (ts : Str)
    (s : OrchState) (p : Post) :
    s.total ≤ (stepPost oracle ts s p).total ∧
    s.success ≤ (stepPost oracle ts s p).success ∧
    s.failed ≤ (stepPost oracle ts s p).failed := by
  refine ⟨?_, ?_, ?_⟩ <;>
    · simp only [stepPost]
      repeat' split
      all_goals try dsimp only
      all_goals omega

lemma runPosts_cons (oracle : Handler → Str → Post → HandlerOutcome) (ts : Str)
    (s : OrchState) (p : Post) (ps : List Post) :
    runPosts oracle ts s (p :: ps) = runPosts oracle ts (stepPost oracle ts s p) ps := rfl

/-- C10: across a whole batch the statistics satisfy
`total = success + failed` (given it held at the start) and all three
counters are monotone; a record skipped for missing name or unresolvable
diocese changes nothing at all, and a record whose diocese has no handler
changes none of the counters yet is appended to the failed list. -/
theorem c10_stats_invariant :
    (∀ (oracle : Handler → Str → Post → HandlerOutcome) (ts : Str)
       (posts : List Post) (s : OrchState),
       s.total = s.success + s.failed →
       (runPosts oracle ts s posts).total =
         (runPosts oracle ts s posts).success + (runPosts oracle ts s posts).failed)
    ∧ (∀ (oracle : Handler → Str → Post → HandlerOutcome) (ts : Str)
       (posts : List Post) (s : OrchState),
       s.total ≤ (runPosts oracle ts s posts).total ∧
       s.success ≤ (runPosts oracle ts s posts).success ∧
       s.failed ≤ (runPosts oracle ts s posts).failed)
    ∧ (∀ (oracle : Handler → Str → Post → HandlerOutcome) (ts : Str)
       (s : OrchState) (p : Post),
       (effChurch p = [] ∨ effDiocese p = []) → stepPost oracle ts s p = s)
    ∧ (∀ (oracle : Handler → Str → Post → HandlerOutcome) (ts : Str)
       (s : OrchState) (p : Post),
       ¬ (effChurch p = [] ∨ effDiocese p = []) →
       getHandler (effDiocese p) = none →
       stepPost oracle ts s p = { s with failedPosts := s.failedPosts ++ [p] }) := by
  refine ⟨?_, ?_, ?_, ?_⟩
  · intro oracle ts posts
    induction posts with
    | nil => intro s h; exact h
    | cons p ps ih =>
      intro s h
      rw [runPosts_cons]
      exact ih _ (stepPost_counters oracle ts s p h)
  · intro oracle ts posts
    induction posts with
    | nil =>
      intro s
      exact ⟨Nat.le_refl _, Nat.le_refl _, Nat.le_refl _⟩
    | cons p ps ih =>
      intro s
      rw [runPosts_cons]
      obtain ⟨m1, m2, m3⟩ := stepPost_mono oracle ts s p
      obtain ⟨r1, r2, r3⟩ := ih (stepPost oracle ts s p)
      exact ⟨Nat.le_trans m1 r1, Nat.le_trans m2 r2, Nat.le_trans m3 r3⟩
  · intro oracle ts s p h
    rw [stepPost, if_pos h]
  · intro oracle ts s p h1 h2
    simp only [stepPost, if_neg h1, h2]

/-- C10 witness: the counter identity after a concrete one-record batch. -/
theorem c10_witness :
    (runPosts w10Oracle (st "ts") orchSt0 [w10Post]).total =
      (runPosts w10Oracle (st "ts") orchSt0 [w10Post]).success +
        (runPosts w10Oracle (st "ts") orchSt0 [w10Post]).failed :=
  c10_stats_invariant.1 w10Oracle (st "ts") [w10Post] orchSt0 rfl
